import Mathlib

/-!
Verification development for the dagit asset-graph core:
graph data model, cycle gate, layered layout, per-node status
aggregation (`resolveState` from `runs/LogsToolbar.tsx`) and the
range-selection path search (`opsInRange` from
`workspace/asset-graph/AssetGraphExplorer.tsx`).

TypeScript dictionaries (`{[id]: Node}`, `{[id]: {[id]: boolean}}`) are
embedded as association lists queried with `find?`; `Object.keys` of an
inner dictionary is embedded as the stored key list.  The expression
`graph.nodes[n]` is embedded as a lookup that skips unresolved ids
(`filterMap`); under the documented GraphData invariant every adjacent id
resolves, so the two readings agree.
-/

namespace AssetGraph

/-- Execution state of a single step, the closed four-value set of the
data model (`RUNNING`, `SKIPPED`, `SUCCEEDED`, `FAILED`). -/
inductive IStepState where
  | RUNNING
  | SKIPPED
  | SUCCEEDED
  | FAILED
deriving DecidableEq, Repr

/-- Metadata stored per step key; only the `state` field is read by the
status aggregation. -/
structure StepMeta where
  state : IStepState
deriving DecidableEq

/-- Run metadata dictionary: the per-step-key metadata map
(`metadata.steps[stepKey]`), embedded as a total function on step keys. -/
structure IRunMetadataDict where
  steps : String → StepMeta

/-- A log-capture group: the set of underlying execution steps whose
output and status are displayed as one unit. -/
structure ILogCaptureInfo where
  stepKeys : List String
deriving DecidableEq

/-- `resolveState` from `runs/LogsToolbar.tsx` (lines 105-121): resolves
the states of the constituent steps of a log-capture group into a single
display state. -/
def resolveState (metadata : IRunMetadataDict) (logCapture : ILogCaptureInfo) :
    IStepState :=
  if logCapture.stepKeys.any
      (fun stepKey => (metadata.steps stepKey).state == IStepState.RUNNING) then
    IStepState.RUNNING
  else if logCapture.stepKeys.any
      (fun stepKey => (metadata.steps stepKey).state == IStepState.SKIPPED) then
    IStepState.SKIPPED
  else if logCapture.stepKeys.all
      (fun stepKey => (metadata.steps stepKey).state == IStepState.SUCCEEDED) then
    IStepState.SUCCEEDED
  else
    IStepState.FAILED

/-- The definition record carried by each graph node (`node.definition`
in the explorer): the originating op name and the owning job name. -/
structure NodeDefinition where
  opName : String
  jobName : String
deriving DecidableEq

/-- A node of the asset graph: a stable id, its definition, the asset key
path, and the `hidden` flag marking a foreign/external placeholder. -/
structure Node where
  id : String
  assetKey : List String
  hidden : Bool
  definition : NodeDefinition
deriving DecidableEq

/-- The complete graph for one repository: the node dictionary plus the
upstream and downstream neighbor dictionaries, embedded as association
lists (`nodes` is keyed by `Node.id`; the inner neighbor dictionaries
are kept as their key lists, matching `Object.keys`). -/
structure GraphData where
  nodes : List Node
  upstream : List (String × List String)
  downstream : List (String × List String)
deriving DecidableEq

/-- `graph.nodes[i]`: dictionary lookup of a node by id. -/
def lookupNode (g : GraphData) (i : String) : Option Node :=
  g.nodes.find? (fun n => n.id == i)

/-- `Object.keys(graph.upstream[i] || {})`. -/
def upstreamIds (g : GraphData) (i : String) : List String :=
  ((g.upstream.find? (fun p => p.1 == i)).map Prod.snd).getD []

/-- `Object.keys(graph.downstream[i] || {})`. -/
def downstreamIds (g : GraphData) (i : String) : List String :=
  ((g.downstream.find? (fun p => p.1 == i)).map Prod.snd).getD []

/-- The adjacent id list built by `opsInRange`: upstream keys followed by
downstream keys (the search treats the graph as undirected). -/
def adjacentIds (g : GraphData) (i : String) : List String :=
  upstreamIds g i ++ downstreamIds g i

/-- `[...].map((n) => graph.nodes[n])`: resolve the adjacent ids into
nodes, skipping ids that do not resolve. -/
def adjacentNodes (g : GraphData) (i : String) : List Node :=
  (adjacentIds g i).filterMap (lookupNode g)

/-- The recursive body of `opsInRange` from
`workspace/asset-graph/AssetGraphExplorer.tsx` (lines 384-411), with an
explicit recursion-depth bound `fuel` standing in for the implicit call
stack.  The loop is the literal `for`-loop of the source: `continue` on a
node already in `seen` keeps `best` unchanged, and a candidate replaces
`best` exactly when it is non-empty and either `best` is still empty or
the candidate is shorter than `best`. -/
def opsInRangeAux (g : GraphData) :
    Nat → Node → Node → List String → List String
  | 0, _, _, _ => []
  | fuel + 1, fr, tg, seen =>
    if fr.id = tg.id then
      [tg.definition.opName]
    else
      (adjacentNodes g fr.id).foldl
        (fun best node =>
          if node.id ∈ seen then
            best
          else
            let result := opsInRangeAux g fuel node tg (seen ++ [fr.id])
            if result ≠ [] ∧ (best = [] ∨ result.length < best.length) then
              fr.definition.opName :: result
            else
              best)
        []

/-- The top-level `opsInRange` call with the default `seen = []`.  The
fuel `2 * |nodes| + 2` dominates the recursion depth of the source: every
recursive call pushes one id onto `seen` and every explored neighbor
resolves into a stored node, so at most two consecutive levels per stored
node id are reachable. -/
def opsInRange (g : GraphData) (fr tg : Node) : List String :=
  opsInRangeAux g (2 * g.nodes.length + 2) fr tg []

/-- The loop body of `opsInRange`, abstracted over the candidate function
`C` (the recursive call at the next depth): skip a node already in
`seen`, otherwise replace `best` when the candidate is non-empty and
either `best` is empty or the candidate is strictly shorter.  The loop of
`opsInRangeAux` is definitionally `foldl (bestStep opName seen C) []`. -/
def bestStep (nm : String) (seen : List String) (C : Node → List String)
    (best : List String) (w : Node) : List String :=
  if w.id ∈ seen then
    best
  else if C w ≠ [] ∧ (best = [] ∨ (C w).length < best.length) then
    nm :: C w
  else
    best

/-- Undirected connectivity as `opsInRange` walks it: the reflexive
transitive closure of the step relation `b ∈ adjacentIds g a` (for
GraphData satisfying the inverse-mapping invariant this is exactly being
in one connected component of the undirected dependency graph). -/
inductive Joined (g : GraphData) : String → String → Prop
  | refl (a : String) : Joined g a a
  | step {a b c : String} : b ∈ adjacentIds g a → Joined g b c → Joined g a c

/-- Modelled from the spec: `graphHasCycles` (imported by the explorer
from `workspace/asset-graph/Utils`, whose source is not part of the given
files).  Bounded saturation of the downstream-successor sets; this makes
the spec's depth-first recursion-stack check extensional: the graph has a
cycle exactly when some node reaches itself through at least one
downstream edge. -/
def reachAux (g : GraphData) : Nat → List String → List String
  | 0, acc => acc
  | fuel + 1, acc =>
    reachAux g fuel ((acc ++ acc.flatMap (downstreamIds g)).dedup)

/-- Modelled from the spec: cycle check over the downstream relation (the
`CycleDetector` contract of §4.2, gate of the explorer pipeline). -/
def graphHasCycles (g : GraphData) : Bool :=
  g.nodes.any (fun n =>
    (reachAux g (g.nodes.length + 1) (downstreamIds g n.id)).contains n.id)

/-- A node placed by the layout: id plus its rectangle. -/
structure LayoutNodeBox where
  id : String
  x : Nat
  y : Nat
  width : Nat
  height : Nat
deriving DecidableEq

/-- A 2D anchor point of a routed edge. -/
structure LayoutPoint where
  x : Nat
  y : Nat
deriving DecidableEq

/-- A routed edge: source anchor, target anchor and the dashed flag used
when either endpoint is a hidden/foreign node. -/
structure LayoutEdgeSeg where
  source : LayoutPoint
  target : LayoutPoint
  dashed : Bool
deriving DecidableEq

/-- The computed layout: canvas size, positioned nodes, routed edges. -/
structure LayoutResult where
  width : Nat
  height : Nat
  nodes : List LayoutNodeBox
  edges : List LayoutEdgeSeg
deriving DecidableEq

/-- Modelled from the spec: layer assignment of the `LayoutEngine`
(§4.3): a node's layer is the length of its longest chain of upstream
dependencies, computed with a recursion bound of `|nodes|` (sufficient on
acyclic input, which the cycle gate guarantees). -/
def nodeLayerAux (g : GraphData) : Nat → String → Nat
  | 0, _ => 0
  | fuel + 1, i =>
    match upstreamIds g i with
    | [] => 0
    | us => (us.map (nodeLayerAux g fuel)).foldl Nat.max 0 + 1

/-- Layer of a node, with the standard fuel `|nodes|`. -/
def nodeLayer (g : GraphData) (i : String) : Nat :=
  nodeLayerAux g g.nodes.length i

/-- Modelled from the spec: fixed per-node width, smaller for
hidden/foreign nodes. -/
def boxWidth (hidden : Bool) : Nat := if hidden then 150 else 250

/-- Modelled from the spec: fixed per-node height, smaller for
hidden/foreign nodes. -/
def boxHeight (hidden : Bool) : Nat := if hidden then 40 else 90

/-- Modelled from the spec: `layoutGraph` (imported by the explorer from
`workspace/asset-graph/Utils`, whose source is not part of the given
files).  Layered layout per §4.3: the vertical coordinate is the layer
(dependencies above dependents), the horizontal coordinate is the
within-layer order with declaration order as the deterministic
tie-break, node dimensions are fixed per kind, the canvas is the bounding
box plus a margin, and each downstream edge is routed between the anchor
points of its endpoints and flagged dashed when either endpoint is
hidden.  Every step iterates over the stored lists in their declared
order, so the result is a function of the `GraphData` alone. -/
def layoutGraph (g : GraphData) : LayoutResult :=
  let layerOf := fun (n : Node) => nodeLayer g n.id
  let idxInLayer := fun (n : Node) =>
    (g.nodes.filter (fun m => layerOf m == layerOf n)).findIdx
      (fun m => m.id == n.id)
  let boxes := g.nodes.map (fun n =>
    { id := n.id
      x := 20 + idxInLayer n * 300
      y := 20 + layerOf n * 140
      width := boxWidth n.hidden
      height := boxHeight n.hidden : LayoutNodeBox })
  let anchorOf := fun (i : String) =>
    match boxes.find? (fun b => b.id == i) with
    | some b => ({ x := b.x + b.width / 2, y := b.y + b.height / 2 } : LayoutPoint)
    | none => ({ x := 0, y := 0 } : LayoutPoint)
  let hiddenOf := fun (i : String) =>
    match lookupNode g i with
    | some n => n.hidden
    | none => false
  let edges := g.downstream.flatMap (fun p =>
    p.2.map (fun b =>
      ({ source := anchorOf p.1
         target := anchorOf b
         dashed := hiddenOf p.1 || hiddenOf b : LayoutEdgeSeg })))
  { width := (boxes.map (fun b => b.x + b.width)).foldl Nat.max 0 + 20
    height := (boxes.map (fun b => b.y + b.height)).foldl Nat.max 0 + 20
    nodes := boxes
    edges := edges }

/-- The outcome of the explorer pipeline for a built `GraphData`: the
dedicated cycle error state, the dedicated empty state, or the rendered
view carrying the computed `LayoutResult` (the rendered branch is the
only one that runs layout, status aggregation and path search). -/
inductive ExplorerView where
  | cycleError : ExplorerView
  | noAssets : ExplorerView
  | rendered : LayoutResult → ExplorerView
deriving DecidableEq

/-- The gate logic of `AssetGraphExplorer` /
`AssetGraphExplorerWithData` from
`workspace/asset-graph/AssetGraphExplorer.tsx` (lines 67-92 and 158): a
cyclic graph short-circuits into the "Cycle detected" state, an empty
graph into the "No assets defined" state, and only otherwise is
`layoutGraph` invoked on the data. -/
def assetGraphExplorer (g : GraphData) : ExplorerView :=
  if graphHasCycles g then
    ExplorerView.cycleError
  else if g.nodes.length = 0 then
    ExplorerView.noAssets
  else
    ExplorerView.rendered (layoutGraph g)

/-- A fully-defined node whose id, asset key and op name coincide, for
concrete test graphs. -/
def mkNode (i : String) : Node :=
  { id := i
    assetKey := [i]
    hidden := false
    definition := { opName := i, jobName := "assets_job" } }

/-- The linear chain A→B→C (A upstream of B, B upstream of C). -/
def gChain : GraphData :=
  { nodes := [mkNode "A", mkNode "B", mkNode "C"]
    upstream := [("B", ["A"]), ("C", ["B"])]
    downstream := [("A", ["B"]), ("B", ["C"])] }

/-- The three-node cycle A→B→C→A. -/
def gCyc : GraphData :=
  { nodes := [mkNode "A", mkNode "B", mkNode "C"]
    upstream := [("A", ["C"]), ("B", ["A"]), ("C", ["B"])]
    downstream := [("A", ["B"]), ("B", ["C"]), ("C", ["A"])] }

/-- A graph with no nodes at all. -/
def gEmpty : GraphData := { nodes := [], upstream := [], downstream := [] }

/-- Two nodes with no edges: two distinct connected components. -/
def gDisc : GraphData :=
  { nodes := [mkNode "A", mkNode "B"], upstream := [], downstream := [] }

/-- Metadata in which step `s1` is running and every other step failed. -/
def mdRun : IRunMetadataDict :=
  { steps := fun k =>
      { state := if k = "s1" then IStepState.RUNNING else IStepState.FAILED } }

/-- Metadata in which every step failed. -/
def mdFail : IRunMetadataDict :=
  { steps := fun _ => { state := IStepState.FAILED } }

/-- A two-step log-capture group. -/
def lcPair : ILogCaptureInfo := { stepKeys := ["s1", "s2"] }

/-- A log-capture group with zero constituent steps. -/
def lcEmpty : ILogCaptureInfo := { stepKeys := [] }

/-- C1: for every log-capture group with at least one constituent step
and every step-state mapping, `resolveState` follows the first-match
priority order: any RUNNING step gives RUNNING; otherwise any SKIPPED
step gives SKIPPED; otherwise all-SUCCEEDED gives SUCCEEDED; otherwise
FAILED. -/
theorem resolveState_priority_law (md : IRunMetadataDict)
    (lc : ILogCaptureInfo) (_hne : lc.stepKeys ≠ []) :
    ((∃ k ∈ lc.stepKeys, (md.steps k).state = IStepState.RUNNING) →
        resolveState md lc = IStepState.RUNNING) ∧
    ((∀ k ∈ lc.stepKeys, (md.steps k).state ≠ IStepState.RUNNING) →
      (∃ k ∈ lc.stepKeys, (md.steps k).state = IStepState.SKIPPED) →
        resolveState md lc = IStepState.SKIPPED) ∧
    ((∀ k ∈ lc.stepKeys, (md.steps k).state = IStepState.SUCCEEDED) →
        resolveState md lc = IStepState.SUCCEEDED) ∧
    ((∀ k ∈ lc.stepKeys, (md.steps k).state ≠ IStepState.RUNNING) →
      (∀ k ∈ lc.stepKeys, (md.steps k).state ≠ IStepState.SKIPPED) →
      (∃ k ∈ lc.stepKeys, (md.steps k).state ≠ IStepState.SUCCEEDED) →
        resolveState md lc = IStepState.FAILED) := by
  refine ⟨?_, ?_, ?_, ?_⟩
  · rintro ⟨k, hk, hs⟩
    have h1 : lc.stepKeys.any
        (fun s => (md.steps s).state == IStepState.RUNNING) = true :=
      List.any_eq_true.mpr ⟨k, hk, by simp [hs]⟩
    simp [resolveState, h1]
  · intro hnr
    rintro ⟨k, hk, hs⟩
    have h1 : lc.stepKeys.any
        (fun s => (md.steps s).state == IStepState.RUNNING) = false := by
      simp only [List.any_eq_false, beq_iff_eq]
      exact hnr
    have h2 : lc.stepKeys.any
        (fun s => (md.steps s).state == IStepState.SKIPPED) = true :=
      List.any_eq_true.mpr ⟨k, hk, by simp [hs]⟩
    simp [resolveState, h1, h2]
  · intro hall
    have h1 : lc.stepKeys.any
        (fun s => (md.steps s).state == IStepState.RUNNING) = false := by
      simp only [List.any_eq_false, beq_iff_eq]
      intro x hx
      simp [hall x hx]
    have h2 : lc.stepKeys.any
        (fun s => (md.steps s).state == IStepState.SKIPPED) = false := by
      simp only [List.any_eq_false, beq_iff_eq]
      intro x hx
      simp [hall x hx]
    have h3 : lc.stepKeys.all
        (fun s => (md.steps s).state == IStepState.SUCCEEDED) = true := by
      simp only [List.all_eq_true, beq_iff_eq]
      exact hall
    simp [resolveState, h1, h2, h3]
  · intro hnr hns
    rintro ⟨k, hk, hs⟩
    have h1 : lc.stepKeys.any
        (fun s => (md.steps s).state == IStepState.RUNNING) = false := by
      simp only [List.any_eq_false, beq_iff_eq]
      exact hnr
    have h2 : lc.stepKeys.any
        (fun s => (md.steps s).state == IStepState.SKIPPED) = false := by
      simp only [List.any_eq_false, beq_iff_eq]
      exact hns
    have h3 : lc.stepKeys.all
        (fun s => (md.steps s).state == IStepState.SUCCEEDED) = false := by
      simp only [List.all_eq_false, beq_iff_eq]
      exact ⟨k, hk, hs⟩
    simp [resolveState, h1, h2, h3]

/-- Witness for C1: a group with a running and a failed step resolves to
RUNNING. -/
theorem resolveState_priority_law_witness :
    lcPair.stepKeys ≠ [] ∧ resolveState mdRun lcPair = IStepState.RUNNING :=
  ⟨by decide,
    (resolveState_priority_law mdRun lcPair (by decide)).1
      ⟨"s1", by decide, by decide⟩⟩

/-- C7 counterexample: on a log-capture group with zero constituent
steps `resolveState` does produce a status — the vacuously true
all-SUCCEEDED branch fires and it returns SUCCEEDED, rather than
producing no status. -/
theorem resolveState_zero_steps_counterexample :
    resolveState mdFail lcEmpty = IStepState.SUCCEEDED := by decide

/-- C7 amended: for every metadata mapping and every log-capture group
with zero constituent steps, `resolveState` returns SUCCEEDED (the two
`any` checks are false and the `all` check is vacuously true on an empty
step list); no "no status" outcome exists in the code. -/
theorem resolveState_zero_steps_succeeded (md : IRunMetadataDict)
    (lc : ILogCaptureInfo) (h : lc.stepKeys = []) :
    resolveState md lc = IStepState.SUCCEEDED := by
  simp [resolveState, h]

/-- Witness for the amended C7. -/
theorem resolveState_zero_steps_succeeded_witness :
    lcEmpty.stepKeys = [] ∧ resolveState mdFail lcEmpty = IStepState.SUCCEEDED :=
  ⟨rfl, resolveState_zero_steps_succeeded mdFail lcEmpty rfl⟩

/-- C2: whenever the cycle check reports a cycle, the explorer pipeline
short-circuits into the dedicated cycle-error state and no rendered view
(hence no `LayoutResult`) is produced. -/
theorem explorer_cycle_short_circuit (g : GraphData)
    (h : graphHasCycles g = true) :
    assetGraphExplorer g = ExplorerView.cycleError ∧
      ∀ L : LayoutResult, assetGraphExplorer g ≠ ExplorerView.rendered L := by
  refine ⟨by simp [assetGraphExplorer, h], fun L => by simp [assetGraphExplorer, h]⟩

/-- Witness for C2 on the three-node cycle A→B→C→A. -/
theorem explorer_cycle_short_circuit_witness :
    graphHasCycles gCyc = true ∧
      assetGraphExplorer gCyc = ExplorerView.cycleError ∧
      ∀ L : LayoutResult, assetGraphExplorer gCyc ≠ ExplorerView.rendered L :=
  ⟨by decide, explorer_cycle_short_circuit gCyc (by decide)⟩

/-- C8: an acyclic graph with zero nodes is surfaced as the dedicated
"nothing to show" state, which is distinct from the cycle-error state,
and the pipeline short-circuits before layout. -/
theorem explorer_empty_distinct_state (g : GraphData)
    (hc : graphHasCycles g = false) (hn : g.nodes = []) :
    assetGraphExplorer g = ExplorerView.noAssets ∧
      ExplorerView.noAssets ≠ ExplorerView.cycleError ∧
      ∀ L : LayoutResult, assetGraphExplorer g ≠ ExplorerView.rendered L := by
  refine ⟨by simp [assetGraphExplorer, hc, hn], by simp,
    fun L => by simp [assetGraphExplorer, hc, hn]⟩

/-- Witness for C8 on the graph with no nodes. -/
theorem explorer_empty_distinct_state_witness :
    graphHasCycles gEmpty = false ∧ gEmpty.nodes = [] ∧
      assetGraphExplorer gEmpty = ExplorerView.noAssets ∧
      ExplorerView.noAssets ≠ ExplorerView.cycleError ∧
      ∀ L : LayoutResult, assetGraphExplorer gEmpty ≠ ExplorerView.rendered L :=
  ⟨by decide, rfl,
    explorer_empty_distinct_state gEmpty (by decide) rfl⟩

/-- C9: the layout computation is a function of the `GraphData` alone —
two invocations on identical node, upstream and downstream data produce
an identical `LayoutResult`, with no randomness and no dependence on
anything outside the input. -/
theorem layoutGraph_deterministic (g₁ g₂ : GraphData)
    (hn : g₁.nodes = g₂.nodes) (hu : g₁.upstream = g₂.upstream)
    (hd : g₁.downstream = g₂.downstream) :
    layoutGraph g₁ = layoutGraph g₂ := by
  cases g₁
  cases g₂
  cases hn
  cases hu
  cases hd
  rfl

/-- Witness for C9 on the linear chain graph. -/
theorem layoutGraph_deterministic_witness :
    gChain.nodes = gChain.nodes ∧ layoutGraph gChain = layoutGraph gChain :=
  ⟨rfl, layoutGraph_deterministic gChain gChain rfl rfl rfl⟩

/-- Helper: a call whose endpoints have equal ids returns the singleton
op-name of the target, at any positive fuel. -/
theorem opsInRangeAux_refl (g : GraphData) (fuel : Nat) (hf : fuel ≠ 0)
    (fr tg : Node) (h : fr.id = tg.id) (seen : List String) :
    opsInRangeAux g fuel fr tg seen = [tg.definition.opName] := by
  cases fuel with
  | zero => exact absurd rfl hf
  | succ f => simp [opsInRangeAux, h]

/-- C5: for every graph and node, the path search invoked with
`from = to = n` returns the single-element sequence for that node. -/
theorem opsInRange_self_single (g : GraphData) (n : Node) :
    opsInRange g n n = [n.definition.opName] :=
  opsInRangeAux_refl g _ (by simp [Nat.add_eq_zero]) n n rfl []

/-- C4: on the linear chain A→B→C the path search from A to C returns
exactly the three ids A, B, C in order and nothing else. -/
theorem opsInRange_linear_chain :
    opsInRange gChain (mkNode "A") (mkNode "C") = ["A", "B", "C"] := by decide

/-- The successor-fuel unfolding of `opsInRangeAux`, with the loop
expressed through `bestStep`. -/
theorem opsInRangeAux_succ (g : GraphData) (fuel : Nat) (fr tg : Node)
    (seen : List String) :
    opsInRangeAux g (fuel + 1) fr tg seen =
      if fr.id = tg.id then [tg.definition.opName]
      else
        (adjacentNodes g fr.id).foldl
          (bestStep fr.definition.opName seen
            (fun w => opsInRangeAux g fuel w tg (seen ++ [fr.id]))) [] := rfl

/-- Folding `bestStep` never turns a non-empty accumulator empty and
never increases its length. -/
theorem foldBest_ne_nil_mono (nm : String) (seen : List String)
    (C : Node → List String) :
    ∀ (l : List Node) (best : List String), best ≠ [] →
      l.foldl (bestStep nm seen C) best ≠ [] ∧
      (l.foldl (bestStep nm seen C) best).length ≤ best.length := by
  intro l
  induction l with
  | nil => intro best h; exact ⟨h, Nat.le_refl _⟩
  | cons u l ih =>
    intro best h
    have hstep : bestStep nm seen C best u ≠ [] ∧
        (bestStep nm seen C best u).length ≤ best.length := by
      unfold bestStep
      by_cases h1 : u.id ∈ seen
      · rw [if_pos h1]; exact ⟨h, Nat.le_refl _⟩
      · rw [if_neg h1]
        by_cases h2 : C u ≠ [] ∧ (best = [] ∨ (C u).length < best.length)
        · rw [if_pos h2]
          rcases h2.2 with h3 | h3
          · exact absurd h3 h
          · exact ⟨by simp, by simpa using Nat.succ_le_of_lt h3⟩
        · rw [if_neg h2]; exact ⟨h, Nat.le_refl _⟩
    rw [List.foldl_cons]
    obtain ⟨h1, h2⟩ := ih (bestStep nm seen C best u) hstep.1
    exact ⟨h1, Nat.le_trans h2 hstep.2⟩

/-- Every non-skipped, non-empty candidate bounds the fold result: the
result is non-empty and at most one longer than that candidate. -/
theorem foldBest_le_each (nm : String) (seen : List String)
    (C : Node → List String) :
    ∀ (l : List Node) (best : List String) (w : Node), w ∈ l →
      w.id ∉ seen → C w ≠ [] →
      l.foldl (bestStep nm seen C) best ≠ [] ∧
      (l.foldl (bestStep nm seen C) best).length ≤ (C w).length + 1 := by
  intro l
  induction l with
  | nil => intro best w hw; exact absurd hw (List.not_mem_nil w)
  | cons u l ih =>
    intro best w hw hs hC
    rw [List.foldl_cons]
    rcases List.mem_cons.mp hw with h | h
    · subst h
      have hstep : bestStep nm seen C best w ≠ [] ∧
          (bestStep nm seen C best w).length ≤ (C w).length + 1 := by
        unfold bestStep
        rw [if_neg hs]
        by_cases h2 : C w ≠ [] ∧ (best = [] ∨ (C w).length < best.length)
        · rw [if_pos h2]; exact ⟨by simp, by simp⟩
        · rw [if_neg h2]
          push_neg at h2
          obtain ⟨hb, hlen⟩ := h2 hC
          exact ⟨hb, Nat.le_trans hlen (Nat.le_succ _)⟩
      obtain ⟨h1, h2⟩ := foldBest_ne_nil_mono nm seen C l _ hstep.1
      exact ⟨h1, Nat.le_trans h2 hstep.2⟩
    · exact ih (bestStep nm seen C best u) w h hs hC

/-- Shape of the fold: the accumulator survives unchanged, or the result
is `nm ::` some non-skipped non-empty candidate from the list. -/
theorem foldBest_shape (nm : String) (seen : List String)
    (C : Node → List String) :
    ∀ (l : List Node) (best : List String),
      l.foldl (bestStep nm seen C) best = best ∨
      ∃ w ∈ l, w.id ∉ seen ∧ C w ≠ [] ∧
        l.foldl (bestStep nm seen C) best = nm :: C w := by
  intro l
  induction l with
  | nil => intro best; exact Or.inl rfl
  | cons u l ih =>
    intro best
    rw [List.foldl_cons]
    rcases ih (bestStep nm seen C best u) with h | ⟨w, hw, h1, h2, h3⟩
    · rw [h]
      unfold bestStep
      by_cases hs : u.id ∈ seen
      · rw [if_pos hs]; exact Or.inl rfl
      · rw [if_neg hs]
        by_cases h2 : C u ≠ [] ∧ (best = [] ∨ (C u).length < best.length)
        · rw [if_pos h2]
          exact Or.inr ⟨u, List.mem_cons_self u l, hs, h2.1, rfl⟩
        · rw [if_neg h2]; exact Or.inl rfl
    · exact Or.inr ⟨w, List.mem_cons_of_mem u hw, h1, h2, h3⟩

/-- Combined specification of a non-empty fold from the empty
accumulator: the result is `nm ::` a winning candidate, and it is at most
one longer than every non-skipped non-empty candidate. -/
theorem foldBest_spec (nm : String) (seen : List String)
    (C : Node → List String) (l : List Node)
    (h : l.foldl (bestStep nm seen C) [] ≠ []) :
    ∃ w ∈ l, w.id ∉ seen ∧ C w ≠ [] ∧
      l.foldl (bestStep nm seen C) [] = nm :: C w ∧
      ∀ w' ∈ l, w'.id ∉ seen → C w' ≠ [] →
        (l.foldl (bestStep nm seen C) []).length ≤ (C w').length + 1 := by
  rcases foldBest_shape nm seen C l [] with h0 | ⟨w, hw, h1, h2, h3⟩
  · exact absurd h0 h
  · exact ⟨w, hw, h1, h2, h3, fun w' hw' hs' hC' =>
      (foldBest_le_each nm seen C l [] w' hw' hs' hC').2⟩

/-- An empty fold result means every non-skipped candidate was empty. -/
theorem foldBest_nil (nm : String) (seen : List String)
    (C : Node → List String) (l : List Node)
    (h : l.foldl (bestStep nm seen C) [] = [])
    (w : Node) (hw : w ∈ l) (hs : w.id ∉ seen) : C w = [] := by
  by_contra hC
  exact (foldBest_le_each nm seen C l [] w hw hs hC).1 h

/-- The fold depends on `seen` only through membership and on `C` only
extensionally. -/
theorem foldBest_congr (nm : String) (s₁ s₂ : List String)
    (C₁ C₂ : Node → List String) :
    ∀ (l : List Node) (best : List String),
      (∀ w ∈ l, (w.id ∈ s₁ ↔ w.id ∈ s₂)) → (∀ w ∈ l, C₁ w = C₂ w) →
      l.foldl (bestStep nm s₁ C₁) best = l.foldl (bestStep nm s₂ C₂) best := by
  intro l
  induction l with
  | nil => intro best _ _; rfl
  | cons u l ih =>
    intro best hmem hC
    rw [List.foldl_cons, List.foldl_cons]
    have hstep : bestStep nm s₁ C₁ best u = bestStep nm s₂ C₂ best u := by
      unfold bestStep
      rw [hC u (List.mem_cons_self u l)]
      by_cases hs : u.id ∈ s₁
      · rw [if_pos hs, if_pos ((hmem u (List.mem_cons_self u l)).mp hs)]
      · rw [if_neg hs,
          if_neg (fun hx => hs ((hmem u (List.mem_cons_self u l)).mpr hx))]
    rw [hstep]
    exact ih (bestStep nm s₂ C₂ best u)
      (fun w hw => hmem w (List.mem_cons_of_mem u hw))
      (fun w hw => hC w (List.mem_cons_of_mem u hw))

/-- A successful node lookup returns a node carrying the looked-up id. -/
theorem lookupNode_id {g : GraphData} {i : String} {w : Node}
    (h : lookupNode g i = some w) : w.id = i := by
  have := List.find?_some h
  simpa using this

/-- Every resolved adjacent node sits in the adjacent id list and is the
canonical node stored under its own id. -/
theorem mem_adjacentNodes {g : GraphData} {i : String} {w : Node}
    (h : w ∈ adjacentNodes g i) :
    w.id ∈ adjacentIds g i ∧ lookupNode g w.id = some w := by
  obtain ⟨a, ha, hfind⟩ := List.mem_filterMap.mp h
  have hid : w.id = a := lookupNode_id hfind
  constructor
  · rw [hid]; exact ha
  · rw [hid]; exact hfind

/-- The search depends on `seen` only through membership: the recursion
only ever asks whether a node id is already on the current path. -/
theorem opsInRangeAux_seen_congr (g : GraphData) :
    ∀ (fuel : Nat) (fr tg : Node) (s₁ s₂ : List String),
      (∀ x, x ∈ s₁ ↔ x ∈ s₂) →
      opsInRangeAux g fuel fr tg s₁ = opsInRangeAux g fuel fr tg s₂ := by
  intro fuel
  induction fuel with
  | zero => intro fr tg s₁ s₂ _; rfl
  | succ f ih =>
    intro fr tg s₁ s₂ h
    rw [opsInRangeAux_succ, opsInRangeAux_succ]
    by_cases heq : fr.id = tg.id
    · rw [if_pos heq, if_pos heq]
    · rw [if_neg heq, if_neg heq]
      exact foldBest_congr _ s₁ s₂ _ _ _ []
        (fun w _ => h w.id)
        (fun w _ => ih w tg (s₁ ++ [fr.id]) (s₂ ++ [fr.id])
          (fun x => by simp [h x]))

/-- One extra unit of fuel never loses a found path and never lengthens
the found path. -/
theorem opsInRangeAux_fuel_mono (g : GraphData) :
    ∀ (fuel : Nat) (fr tg : Node) (seen : List String),
      opsInRangeAux g fuel fr tg seen ≠ [] →
      opsInRangeAux g (fuel + 1) fr tg seen ≠ [] ∧
      (opsInRangeAux g (fuel + 1) fr tg seen).length ≤
        (opsInRangeAux g fuel fr tg seen).length := by
  intro fuel
  induction fuel with
  | zero => intro fr tg seen h; exact absurd rfl h
  | succ f ih =>
    intro fr tg seen h
    by_cases heq : fr.id = tg.id
    · rw [opsInRangeAux_succ g (f + 1) fr tg seen, if_pos heq,
        opsInRangeAux_succ g f fr tg seen, if_pos heq]
      exact ⟨by simp, Nat.le_refl _⟩
    · rw [opsInRangeAux_succ g f fr tg seen, if_neg heq] at h
      obtain ⟨w, hw, hs, hC, hres, _⟩ := foldBest_spec _ _ _ _ h
      obtain ⟨hne', hle'⟩ := ih w tg (seen ++ [fr.id]) hC
      rw [opsInRangeAux_succ g (f + 1) fr tg seen, if_neg heq,
        opsInRangeAux_succ g f fr tg seen, if_neg heq]
      obtain ⟨h1, h2⟩ := foldBest_le_each fr.definition.opName seen
        (fun u => opsInRangeAux g (f + 1) u tg (seen ++ [fr.id]))
        (adjacentNodes g fr.id) [] w hw hs hne'
      refine ⟨h1, ?_⟩
      rw [hres]
      have : (opsInRangeAux g (f + 1) w tg (seen ++ [fr.id])).length + 1 ≤
          (opsInRangeAux g f w tg (seen ++ [fr.id])).length + 1 :=
        Nat.add_le_add_right hle' 1
      simpa using Nat.le_trans h2 this

/-- A non-empty search result implies the endpoints are joined along the
undirected upstream/downstream adjacency. -/
theorem opsInRangeAux_joined (g : GraphData) :
    ∀ (fuel : Nat) (fr tg : Node) (seen : List String),
      opsInRangeAux g fuel fr tg seen ≠ [] → Joined g fr.id tg.id := by
  intro fuel
  induction fuel with
  | zero => intro _ _ _ h; exact absurd rfl h
  | succ f ih =>
    intro fr tg seen h
    by_cases heq : fr.id = tg.id
    · rw [heq]; exact Joined.refl _
    · rw [opsInRangeAux_succ, if_neg heq] at h
      obtain ⟨w, hw, _, hC, _, _⟩ := foldBest_spec _ _ _ _ h
      exact Joined.step (mem_adjacentNodes hw).1 (ih w tg _ hC)

/-- Membership in a list with a known head is membership in the head or
in the tail. -/
theorem head?_mem_split {α : Type} {l : List α} {w x : α}
    (hh : l.head? = some w) (hx : x ∈ l) : x = w ∨ x ∈ l.tail := by
  cases l with
  | nil => simp at hx
  | cons b t =>
    have hb : b = w := by simpa using hh
    rcases List.mem_cons.mp hx with h | h
    · exact Or.inl (h.trans hb)
    · exact Or.inr h

/-- Core invariant of the search: a non-empty result is the op-name image
of a path of canonical nodes that starts at `fr`, ends at `tg`, steps
only along the upstream/downstream adjacency, keeps its inner nodes off
`seen`, and never repeats a node id.  The last point includes self-loops:
a candidate walking the loop is always strictly longer than the same walk
without it, so the shortest-kept rule discards it. -/
theorem opsInRangeAux_valid (g : GraphData) :
    ∀ (fuel : Nat) (fr tg : Node) (seen : List String),
      lookupNode g fr.id = some fr → lookupNode g tg.id = some tg →
      opsInRangeAux g fuel fr tg seen ≠ [] →
      ∃ p : List Node,
        opsInRangeAux g fuel fr tg seen =
          p.map (fun n => n.definition.opName) ∧
        p.head? = some fr ∧ p.getLast? = some tg ∧
        List.Chain' (fun a b => b.id ∈ adjacentIds g a.id) p ∧
        (∀ x ∈ p.tail, x.id ∉ seen) ∧
        (p.map Node.id).Nodup := by
  intro fuel
  induction fuel with
  | zero => intro fr tg seen _ _ h; exact absurd rfl h
  | succ f ih =>
    intro fr tg seen hfr htg h
    by_cases heq : fr.id = tg.id
    · have h2 := hfr
      rw [heq, htg] at h2
      have hft : fr = tg := (Option.some.inj h2).symm
      subst hft
      refine ⟨[fr], ?_, rfl, rfl, List.chain'_singleton fr, ?_, by simp⟩
      · rw [opsInRangeAux_succ, if_pos rfl]
        rfl
      · intro x hx
        simp at hx
    · rw [opsInRangeAux_succ, if_neg heq] at h
      obtain ⟨w, hw, hs, hC, hres, hbound⟩ := foldBest_spec _ _ _ _ h
      obtain ⟨hadj, hcanon⟩ := mem_adjacentNodes hw
      obtain ⟨p', hmap, hhead, hlast, hchain, htail, hnodup⟩ :=
        ih w tg (seen ++ [fr.id]) hcanon htg hC
      have hp'ne : p' ≠ [] := by
        intro hnil
        rw [hnil] at hmap
        exact hC (by simpa using hmap)
      refine ⟨fr :: p', ?_, rfl, ?_, ?_, ?_, ?_⟩
      · rw [opsInRangeAux_succ, if_neg heq, hres, hmap, List.map_cons]
      · cases p' with
        | nil => exact absurd rfl hp'ne
        | cons b l => rw [List.getLast?_cons_cons]; exact hlast
      · rw [List.chain'_cons']
        refine ⟨?_, hchain⟩
        intro y hy
        rw [hhead] at hy
        have hyw : w = y := by simpa using hy
        rw [← hyw]
        exact hadj
      · intro x hx
        rcases head?_mem_split hhead hx with hxw | hxt
        · rw [hxw]; exact hs
        · intro hmem
          exact htail x hxt (List.mem_append_left _ hmem)
      · rw [List.map_cons, List.nodup_cons]
        refine ⟨?_, hnodup⟩
        intro hmem
        obtain ⟨x, hxmem, hxid⟩ := List.mem_map.mp hmem
        rcases head?_mem_split hhead hxmem with hxw | hxt
        · -- x is the winning neighbor: then the winner is a self-loop
          -- candidate, which the length bounds rule out.
          have hwid : w.id = fr.id := by rw [← hxw]; exact hxid
          have hwfr : w = fr := by
            have h1 := hcanon
            rw [hwid, hfr] at h1
            exact (Option.some.inj h1).symm
          rw [hwfr] at hC hres
          cases f with
          | zero => exact hC rfl
          | succ m =>
            have hunfold : opsInRangeAux g (m + 1) fr tg (seen ++ [fr.id]) =
                (adjacentNodes g fr.id).foldl
                  (bestStep fr.definition.opName (seen ++ [fr.id])
                    (fun u => opsInRangeAux g m u tg
                      ((seen ++ [fr.id]) ++ [fr.id]))) [] := by
              rw [opsInRangeAux_succ, if_neg heq]
            have hCne := hC
            rw [hunfold] at hCne
            obtain ⟨w2, hw2, hs2, hC2, hres2, _⟩ := foldBest_spec _ _ _ _ hCne
            have hseeneq : opsInRangeAux g m w2 tg ((seen ++ [fr.id]) ++ [fr.id]) =
                opsInRangeAux g m w2 tg (seen ++ [fr.id]) :=
              opsInRangeAux_seen_congr g m w2 tg _ _
                (by intro x; simp)
            rw [hseeneq] at hC2 hres2
            obtain ⟨hne2, hle2⟩ :=
              opsInRangeAux_fuel_mono g m w2 tg (seen ++ [fr.id]) hC2
            have hs2' : w2.id ∉ seen := fun hx => hs2 (List.mem_append_left _ hx)
            have hb := hbound w2 hw2 hs2' hne2
            have hlen1 : ((adjacentNodes g fr.id).foldl
                (bestStep fr.definition.opName seen
                  (fun u => opsInRangeAux g (m + 1) u tg (seen ++ [fr.id])))
                []).length =
                (opsInRangeAux g (m + 1) fr tg (seen ++ [fr.id])).length + 1 := by
              rw [hres]
              simp
            have hlen2 : (opsInRangeAux g (m + 1) fr tg (seen ++ [fr.id])).length =
                (opsInRangeAux g m w2 tg (seen ++ [fr.id])).length + 1 := by
              rw [hunfold, hres2]
              simp
            rw [hlen1, hlen2] at hb
            omega
        · -- x is an inner node of the winner's path: its id avoids
          -- `seen ++ [fr.id]`, contradiction with `x.id = fr.id`.
          exact htail x hxt (by rw [hxid]; exact List.mem_append_right _ (by simp))

/-- C3: at every recursion level with distinct endpoints, a non-empty
result decomposes as the current op-name followed by the candidate found
through one neighbor drawn from the combined upstream-and-downstream
adjacency and not on the current path, and the result is at least as
short as every candidate discovered through any non-skipped alternative
neighbor — the search keeps a shortest discovered path, with the
visited-on-current-path list `seen` (not a global visited set) deciding
which neighbors are skipped. -/
theorem opsInRange_undirected_shortest_kept (g : GraphData) (fuel : Nat)
    (fr tg : Node) (seen : List String) (hne : fr.id ≠ tg.id)
    (h : opsInRangeAux g (fuel + 1) fr tg seen ≠ []) :
    ∃ w ∈ (upstreamIds g fr.id ++ downstreamIds g fr.id).filterMap
        (lookupNode g),
      w.id ∉ seen ∧
      opsInRangeAux g (fuel + 1) fr tg seen =
        fr.definition.opName :: opsInRangeAux g fuel w tg (seen ++ [fr.id]) ∧
      ∀ w' ∈ (upstreamIds g fr.id ++ downstreamIds g fr.id).filterMap
          (lookupNode g),
        w'.id ∉ seen → opsInRangeAux g fuel w' tg (seen ++ [fr.id]) ≠ [] →
        (opsInRangeAux g (fuel + 1) fr tg seen).length ≤
          (opsInRangeAux g fuel w' tg (seen ++ [fr.id])).length + 1 := by
  have hunfold : opsInRangeAux g (fuel + 1) fr tg seen =
      (adjacentNodes g fr.id).foldl
        (bestStep fr.definition.opName seen
          (fun u => opsInRangeAux g fuel u tg (seen ++ [fr.id]))) [] := by
    rw [opsInRangeAux_succ, if_neg hne]
  rw [hunfold] at h
  obtain ⟨w, hw, hs, _, hres, hbound⟩ := foldBest_spec _ _ _ _ h
  refine ⟨w, hw, hs, ?_, ?_⟩
  · rw [hunfold, hres]
  · intro w' hw' hs' hC'
    rw [hunfold]
    exact hbound w' hw' hs' hC'

/-- Witness for C3 at the first step of the chain search from A to B. -/
theorem opsInRange_undirected_shortest_kept_witness :
    ((mkNode "A").id ≠ (mkNode "B").id ∧
      opsInRangeAux gChain (1 + 1) (mkNode "A") (mkNode "B") [] ≠ []) ∧
    ∃ w ∈ (upstreamIds gChain (mkNode "A").id ++
        downstreamIds gChain (mkNode "A").id).filterMap (lookupNode gChain),
      w.id ∉ ([] : List String) ∧
      opsInRangeAux gChain (1 + 1) (mkNode "A") (mkNode "B") [] =
        (mkNode "A").definition.opName ::
          opsInRangeAux gChain 1 w (mkNode "B") ([] ++ [(mkNode "A").id]) ∧
      ∀ w' ∈ (upstreamIds gChain (mkNode "A").id ++
          downstreamIds gChain (mkNode "A").id).filterMap (lookupNode gChain),
        w'.id ∉ ([] : List String) →
        opsInRangeAux gChain 1 w' (mkNode "B") ([] ++ [(mkNode "A").id]) ≠ [] →
        (opsInRangeAux gChain (1 + 1) (mkNode "A") (mkNode "B") []).length ≤
          (opsInRangeAux gChain 1 w' (mkNode "B")
            ([] ++ [(mkNode "A").id])).length + 1 :=
  ⟨⟨by decide, by decide⟩,
    opsInRange_undirected_shortest_kept gChain 1 (mkNode "A") (mkNode "B") []
      (by decide) (by decide)⟩

/-- On the edgeless two-node graph the step relation is empty, so joined
ids are equal. -/
theorem gDisc_joined_eq : ∀ a b : String, Joined gDisc a b → a = b := by
  intro a b h
  induction h with
  | refl a => rfl
  | step hm _ _ =>
    simp [adjacentIds, upstreamIds, downstreamIds, gDisc] at hm

/-- C6: for distinct endpoints with no connecting walk along the
undirected upstream/downstream adjacency (different connected
components), the path search returns the empty sequence — a normal
value-level outcome, not an error. -/
theorem opsInRange_disconnected_empty (g : GraphData) (fr tg : Node)
    (_hne : fr.id ≠ tg.id) (hdisc : ¬ Joined g fr.id tg.id) :
    opsInRange g fr tg = [] := by
  by_contra h
  exact hdisc (opsInRangeAux_joined g _ fr tg [] h)

/-- Witness for C6 on the edgeless two-node graph. -/
theorem opsInRange_disconnected_empty_witness :
    ((mkNode "A").id ≠ (mkNode "B").id ∧
      ¬ Joined gDisc (mkNode "A").id (mkNode "B").id) ∧
    opsInRange gDisc (mkNode "A") (mkNode "B") = [] :=
  ⟨⟨by decide, fun h => absurd (gDisc_joined_eq _ _ h) (by decide)⟩,
    opsInRange_disconnected_empty gDisc (mkNode "A") (mkNode "B") (by decide)
      (fun h => absurd (gDisc_joined_eq _ _ h) (by decide))⟩

/-- C10: whenever the path search returns a non-empty sequence for two
nodes stored in the graph, that sequence is the op-name image of a valid
simple path: it starts at the `from` node, ends at the `to` node, every
consecutive pair is adjacent via the upstream or downstream mapping, and
no underlying node id occurs twice. -/
theorem opsInRange_valid_simple_path (g : GraphData) (fr tg : Node)
    (hfr : lookupNode g fr.id = some fr) (htg : lookupNode g tg.id = some tg)
    (h : opsInRange g fr tg ≠ []) :
    ∃ p : List Node,
      opsInRange g fr tg = p.map (fun n => n.definition.opName) ∧
      p.head? = some fr ∧ p.getLast? = some tg ∧
      List.Chain' (fun a b =>
        b.id ∈ upstreamIds g a.id ∨ b.id ∈ downstreamIds g a.id) p ∧
      (p.map Node.id).Nodup := by
  obtain ⟨p, h1, h2, h3, h4, _, h6⟩ :=
    opsInRangeAux_valid g (2 * g.nodes.length + 2) fr tg [] hfr htg h
  refine ⟨p, h1, h2, h3, ?_, h6⟩
  exact h4.imp (fun a b hab => by
    simp only [adjacentIds, List.mem_append] at hab
    exact hab)

/-- Witness for C10 on the chain graph from A to C. -/
theorem opsInRange_valid_simple_path_witness :
    (lookupNode gChain (mkNode "A").id = some (mkNode "A") ∧
      lookupNode gChain (mkNode "C").id = some (mkNode "C") ∧
      opsInRange gChain (mkNode "A") (mkNode "C") ≠ []) ∧
    ∃ p : List Node,
      opsInRange gChain (mkNode "A") (mkNode "C") =
        p.map (fun n => n.definition.opName) ∧
      p.head? = some (mkNode "A") ∧ p.getLast? = some (mkNode "C") ∧
      List.Chain' (fun a b =>
        b.id ∈ upstreamIds gChain a.id ∨ b.id ∈ downstreamIds gChain a.id) p ∧
      (p.map Node.id).Nodup :=
  ⟨⟨by decide, by decide, by decide⟩,
    opsInRange_valid_simple_path gChain (mkNode "A") (mkNode "C")
      (by decide) (by decide) (by decide)⟩

end AssetGraph
